import Mathlib

/-!
# cat (canoutils): the line transformation engine of `src/cat/cat.c`

A shallow embedding of `print_file`, `print_stdin`, `cat` and the argument
loop of `main`, and the properties of the formatting rules and of the option
parsing proved (or refuted) on that embedding.

Conventions of the embedding.

* A byte is a natural number; a buffer is the list of the bytes of the C array
  `buf` in index order, the terminating zero byte and whatever the array holds
  after it included. `cat` allocates `file_size + 1` bytes, so for a file the
  array is the contents followed by one zero byte.
* Reading `buf[i]` is `buf[i]?`: an index outside the array gives `none`, and
  the whole call then has no defined result (`none`).
* Standard output is the list of bytes written, in order.
* `int` is the 32-bit two's complement integer and `size_t` and pointers have
  64 bits (the LP64 model). Converting a `size_t` to `int` wraps modulo `2^32`
  (`int_of_size`); arithmetic overflow of an `int` is undefined behaviour and
  gives `none`.
* `isprint` is that of the "C" locale (the program never calls `setlocale`).
-/

namespace Cat

/-- The six global option flags (lines 34-39). -/
structure Flags where
  number_nonblank : Bool
  show_ends : Bool
  number : Bool
  squeeze_blank : Bool
  show_tabs : Bool
  show_nonprinting : Bool
  deriving DecidableEq

/-- The initial value of the flags: all `false` (lines 34-39). -/
def no_flags : Flags :=
  { number_nonblank := false, show_ends := false, number := false,
    squeeze_blank := false, show_tabs := false, show_nonprinting := false }

/-- The bytes of an ASCII string literal. -/
def bytes (s : String) : List Nat := s.toList.map Char.toNat

/-- Line 231: `#define NUMBER_BEFORE 6`. -/
def NUMBER_BEFORE : Nat := 6

/-- The conversion `%*d` of printf for a non-negative argument: the decimal
digits, padded on the left with spaces up to the field width. -/
def printf_d (width n : Nat) : List Nat :=
  List.replicate (width - (Nat.toDigits 10 n).length) 32 ++ (Nat.toDigits 10 n).map Char.toNat

/-- The output of `printf("%*d  ", NUMBER_BEFORE, lines)` (lines 237, 242). -/
def num_field (lines : Nat) : List Nat := printf_d NUMBER_BEFORE lines ++ [32, 32]

/-- The output of `printf("\n%*d  ", NUMBER_BEFORE, lines)` (lines 255, 266, 273). -/
def nl_num_field (lines : Nat) : List Nat := 10 :: num_field lines

/-- The C library `strlen`: the index of the first zero byte; `none` when the
array holds no zero byte (the scan leaves the array). -/
def strlen : List Nat → Option Nat
  | [] => none
  | c :: cs => if c = 0 then some 0 else (strlen cs).map (· + 1)

/-- The C library `isprint` in the "C" locale: 0x20 to 0x7E. -/
def isprint (c : Nat) : Bool := decide (0x20 ≤ c) && decide (c ≤ 0x7E)

/-- The largest value of the C type `int`: `2^31 - 1`. -/
def INT_MAX : Nat := 2147483647

/-- The conversion of a `size_t` value to `int`, as in `int len = strlen(buf)`
(line 245): the value modulo `2^32`, taken in the range `-2^31` to
`2^31 - 1`. -/
def int_of_size (n : Nat) : Int :=
  if n % 4294967296 ≤ INT_MAX then ((n % 4294967296 : Nat) : Int)
  else ((n % 4294967296 : Nat) : Int) - 4294967296

/-- The value of `++lines` for the `int` counter `lines`; `none` when the
increment overflows. -/
def incr_lines (lines : Nat) : Option Nat :=
  if lines < INT_MAX then some (lines + 1) else none

/-- Lines 276-293 of the loop body, for the current byte `c`: the show-tabs
rule, the show-nonprinting rule and the final `putchar(buf[i])`. The byte
written by `%c` is its argument converted to `unsigned char`. -/
def emit_char (f : Flags) (c : Nat) : List Nat :=
  if f.show_tabs && c == 9 then [94, 73]
  else if f.show_nonprinting && !isprint c && c != 9 && c != 10 then
    if c &&& 0x80 != 0 then [77, 45, 94, (64 + (c &&& 0x7F)) % 256]
    else [94, (64 + c) % 256]
  else [c]

/-- Lines 269-293 of the loop body, given the current byte `c` and the result
`next` of reading `buf[i + 1]` (forced only where the code reads it): the
show-ends rule, the number rule, then `emit_char`. The result is the bytes
written and the new value of `lines`. -/
def ends_number (f : Flags) (next : Unit → Option Nat) (lines c : Nat) :
    Option (List Nat × Nat) :=
  if f.number && c == 10 then
    (next ()).bind fun c1 =>
      if c1 != 0 then
        (incr_lines lines).map fun l =>
          ((if f.show_ends && c == 10 then [36] else []) ++ nl_num_field l, l)
      else some ((if f.show_ends && c == 10 then [36] else []) ++ emit_char f c, lines)
  else some ((if f.show_ends && c == 10 then [36] else []) ++ emit_char f c, lines)

/-- Lines 264-293 of the loop body: the number-nonblank rule, then
`ends_number`. -/
def nonblank_down (f : Flags) (next : Unit → Option Nat) (lines c : Nat) :
    Option (List Nat × Nat) :=
  if f.number_nonblank && c == 10 then
    (next ()).bind fun c1 =>
      if c1 != 10 && c1 != 0 then (incr_lines lines).map fun l => (nl_num_field l, l)
      else ends_number f next lines c
  else ends_number f next lines c

/-- One iteration of the loop of `print_file` (lines 247-293) at index `i` with
counter `lines`: the bytes written and the new value of `lines`. The index
satisfies `0 <= i < len`, so `i + 1` does not overflow, and `i + 2` is
computed only after `i + 1 < len`. -/
def loop_body (f : Flags) (buf : List Nat) (len : Int) (i lines : Nat) :
    Option (List Nat × Nat) :=
  (buf[i]?).bind fun c =>
    if f.squeeze_blank && c == 10 then
      if (i : Int) + 1 < len then
        (buf[i + 1]?).bind fun c1 =>
          if c1 == 10 then
            if (i : Int) + 2 < len then
              (buf[i + 2]?).bind fun c2 =>
                if c2 != 10 then
                  if f.number then (incr_lines lines).map fun l => (nl_num_field l, l)
                  else some ([10], lines)
                else some ([], lines)
            else some ([], lines)
          else nonblank_down f (fun _ => buf[i + 1]?) lines c
      else nonblank_down f (fun _ => buf[i + 1]?) lines c
    else nonblank_down f (fun _ => buf[i + 1]?) lines c

/-- The loop `for (int i = 0; i < len; ++i)` of `print_file` (line 246) for
the `int` bound `len`. The body never assigns `i` and every `continue` goes to
`++i`, so from index `i` the loop runs exactly the `n` remaining iterations,
`n = len - i` when `i <= len`; from `i = 0` that is no iteration when `len` is
zero or negative. -/
def scan (f : Flags) (buf : List Nat) (len : Int) : Nat → Nat → Nat → Option (List Nat)
  | 0, _, _ => some []
  | n + 1, i, lines =>
    (loop_body f buf len i lines).bind fun r =>
      (scan f buf len n (i + 1) r.2).map fun out => r.1 ++ out

/-- The pre-line numbering of `print_file` (lines 235-244), with `lines = 1`. -/
def pre_line (f : Flags) (buf : List Nat) : Option (List Nat) :=
  (if f.number_nonblank then
    (buf[0]?).bind fun c0 =>
      if c0 != 10 then
        (buf[1]?).bind fun c1 => some (if c1 != 0 then num_field 1 else [])
      else some []
  else some []).map fun p => (if f.number then num_field 1 else []) ++ p

/-- The function `print_file` (lines 233-297): the bytes written to standard
output for the array `buf`; `none` when an index outside the array is read or
the counter overflows. The bound of the loop is `int len = strlen(buf)`. -/
def print_file (f : Flags) (buf : List Nat) : Option (List Nat) :=
  (pre_line f buf).bind fun p =>
    (strlen buf).bind fun n =>
      (scan f buf (int_of_size n) (int_of_size n).toNat 0 1).map fun out => p ++ out

/-- Lines 202-217 of `cat`: the array allocated for a file, `file_size + 1`
bytes holding the contents and a terminating zero byte. -/
def load (contents : List Nat) : List Nat := contents ++ [0]

/-- The `for` loop of `cat` (lines 172-227) over the contents of the files
still to process, each a regular file that is opened and read without error:
every file is loaded and handed to `print_file` in turn, and `[]` is the end of
the loop. The result is all that was written to standard output. -/
def cat (f : Flags) : List (List Nat) → Option (List Nat)
  | [] => some []
  | contents :: rest =>
    (print_file f (load contents)).bind fun out => (cat f rest).map fun outs => out ++ outs

/-! ## The loop as a function of the bytes still to scan

The same loop, stated over the list of bytes from index `i` up to the
terminator instead of over the array and an index, with natural numbers for
the counter. The theorems `loop_body_eq`, `scan_eq` and `print_file_eq` below
prove that this is what `print_file` computes on a zero-terminated array whose
length fits an `int`, where the counter does not overflow. -/

/-- Value form of `ends_number`: `c1` is the byte at `buf[i + 1]`. -/
def ends_number_v (f : Flags) (lines c c1 : Nat) : List Nat × Nat :=
  if f.number && c == 10 && c1 != 0 then
    ((if f.show_ends && c == 10 then [36] else []) ++ nl_num_field (lines + 1), lines + 1)
  else ((if f.show_ends && c == 10 then [36] else []) ++ emit_char f c, lines)

/-- Value form of `nonblank_down`: `c1` is the byte at `buf[i + 1]`. -/
def nonblank_down_v (f : Flags) (lines c c1 : Nat) : List Nat × Nat :=
  if f.number_nonblank && c == 10 && c1 != 10 && c1 != 0 then
    (nl_num_field (lines + 1), lines + 1)
  else ends_number_v f lines c c1

/-- Value form of `loop_body`: `c` is the current byte and `rest` the bytes
between it and the terminator. -/
def step_v (f : Flags) (lines c : Nat) (rest : List Nat) : List Nat × Nat :=
  if f.squeeze_blank && c == 10 && rest.head? == some 10 then
    match rest.tail with
    | [] => ([], lines)
    | c2 :: _ =>
      if c2 != 10 then
        if f.number then (nl_num_field (lines + 1), lines + 1) else ([10], lines)
      else ([], lines)
  else nonblank_down_v f lines c (rest.headD 0)

/-- Value form of `scan`: the output of the loop over the bytes `s` that remain
before the terminator, entered with counter `lines`. -/
def scan_v (f : Flags) : List Nat → Nat → List Nat
  | [], _ => []
  | c :: rest, lines => (step_v f lines c rest).1 ++ scan_v f rest (step_v f lines c rest).2

/-- Value form of `pre_line` for a buffer with contents `b` before the
terminator and `junk` after it. -/
def pre_line_v (f : Flags) (b junk : List Nat) : List Nat :=
  (if f.number then num_field 1 else []) ++
    (if f.number_nonblank && (b ++ 0 :: junk).headD 0 != 10
        && (b ++ 0 :: junk).tail.headD 0 != 0 then num_field 1 else [])

/-! ## Reference definitions, from the specification -/

/-- Only `number` set. -/
def only_number : Flags := { no_flags with number := true }

/-- Only `number_nonblank` set. -/
def only_number_nonblank : Flags := { no_flags with number_nonblank := true }

/-- Only `squeeze_blank` set. -/
def only_squeeze : Flags := { no_flags with squeeze_blank := true }

/-- Only `show_tabs` set. -/
def only_show_tabs : Flags := { no_flags with show_tabs := true }

/-- Only `show_nonprinting` set. -/
def only_show_nonprinting : Flags := { no_flags with show_nonprinting := true }

/-- The lines of a buffer, newline included: each newline-terminated segment,
plus a final unterminated segment when the buffer does not end in a newline. -/
def segments : List Nat → List (List Nat)
  | [] => []
  | c :: cs =>
    if c = 10 then [10] :: segments cs
    else
      match segments cs with
      | [] => [[c]]
      | s :: ss => (c :: s) :: ss

/-- Numbered lines: the concatenation, over the lines in order, of the
numbering field of `k`, `k + 1`, ... followed by the line unchanged. -/
def number_ref (k : Nat) : List (List Nat) → List Nat
  | [] => []
  | l :: ls => num_field k ++ l ++ number_ref (k + 1) ls

/-- Show-tabs reference: every tab byte replaced by `^I`, every other byte
copied. -/
def show_tabs_ref (b : List Nat) : List Nat :=
  b.flatMap fun c => if c = 9 then [94, 73] else [c]

/-- Show-nonprinting reference for one byte: itself when printable ASCII, tab
or newline; `M-^` and `0x40 + (b & 0x7F)` when the high bit is set; otherwise
`^` and `0x40 + b`. -/
def caret_ref (b : Nat) : List Nat :=
  if (0x20 ≤ b ∧ b ≤ 0x7E) ∨ b = 9 ∨ b = 10 then [b]
  else if b &&& 0x80 ≠ 0 then [77, 45, 94, 0x40 + (b &&& 0x7F)]
  else [94, 0x40 + b]

/-- Show-nonprinting reference: the concatenation of `caret_ref` over the
bytes in order. -/
def show_nonprinting_ref (b : List Nat) : List Nat := b.flatMap caret_ref

/-- The lines of a text without their newlines: the text split at every
newline byte (a text that ends in a newline has a last, empty, piece). -/
def split_lines : List Nat → List (List Nat)
  | [] => [[]]
  | c :: cs =>
    if c = 10 then [] :: split_lines cs
    else
      match split_lines cs with
      | [] => [[c]]
      | l :: ls => (c :: l) :: ls

/-- The non-empty lines of a text, in order. -/
def nonblank_lines (s : List Nat) : List (List Nat) :=
  (split_lines s).filter fun l => !l.isEmpty

/-- Whether two consecutive lines of a list of lines (newlines included) are
both empty, that is both the single newline. -/
def adjacent_blank : List (List Nat) → Bool
  | l1 :: l2 :: ls => (l1 == [10] && l2 == [10]) || adjacent_blank (l2 :: ls)
  | _ => false

/-- Whether some newline of a text is not immediately preceded by `$`; `prev`
is the byte before the text (`none` at the start of the output). -/
def unmarked_newline : Option Nat → List Nat → Bool
  | _, [] => false
  | prev, c :: cs => (c == 10 && prev != some 36) || unmarked_newline (some c) cs

/-- The first line of a text, and the non-empty ones among the lines after
it: what the non-empty lines of `c :: s` depend on, besides `c`. -/
def line_key (s : List Nat) : List Nat × List (List Nat) :=
  ((split_lines s).headD [], (split_lines s).tail.filter fun l => !l.isEmpty)

/-! ## Standard input: `fgets` and `print_stdin` -/

/-- Line 29: `#define BUF_MAX_LEN 4096`. -/
def BUF_MAX_LEN : Nat := 4096

/-- The bytes one call of `fgets` takes from the input when it may store at
most `n` of them: the bytes up to and including the first newline, `n` at
most; paired with the input that remains. -/
def take_line : Nat → List Nat → List Nat × List Nat
  | 0, input => ([], input)
  | _ + 1, [] => ([], [])
  | n + 1, c :: cs =>
    if c = 10 then ([10], cs) else (c :: (take_line n cs).1, (take_line n cs).2)

/-- The C library `fgets(buf, n, stdin)`: `none` (a null pointer) at end of
input; otherwise at most `n - 1` bytes are stored in `buf` followed by a zero
byte, the rest of the array keeps what it held. The result is the new array
and the input that remains. -/
def fgets (n : Nat) (buf input : List Nat) : Option (List Nat × List Nat) :=
  if (take_line (n - 1) input).1 = [] then none
  else
    some ((take_line (n - 1) input).1 ++
        0 :: buf.drop ((take_line (n - 1) input).1.length + 1),
      (take_line (n - 1) input).2)

/-- The loop of `print_stdin` (lines 301-305) with the array `buf` and the
standard input still to read. Every iteration takes at least one byte of the
input, so `fuel` iterations are enough for an input of `fuel` bytes; with too
little fuel the result is `none`. -/
def print_stdin_loop (f : Flags) : Nat → List Nat → List Nat → Option (List Nat)
  | fuel, buf, input =>
    match fgets BUF_MAX_LEN buf input with
    | none => some []
    | some r =>
      match fuel with
      | 0 => none
      | fuel + 1 =>
        (print_file f r.1).bind fun out =>
          (print_stdin_loop f fuel r.1 r.2).map fun outs => out ++ outs

/-- The function `print_stdin` (lines 299-308): `stack` is what the local
array `buf` of `BUF_MAX_LEN` bytes holds on entry, `input` the bytes of
standard input up to its end. The result is what is written to standard
output. -/
def print_stdin (f : Flags) (stack input : List Nat) : Option (List Nat) :=
  print_stdin_loop f input.length stack input

/-! ## `main`: the argument loop, and `cat` over paths -/

/-- What the program sees of its environment: whether
`access(path, F_OK | R_OK)` is 0, the contents of a file that `fopen` and
`fread` deliver (`none` when one of them fails), the bytes of standard input,
and the initial contents of the local array of `print_stdin`. -/
structure World where
  access : String → Bool
  read : String → Option (List Nat)
  stdin : List Nat
  stack : List Nat

/-- The `strcmp` chain of the case `-` (lines 108-124) for the argument
`arg`. -/
def long_option (arg : String) (f : Flags) : Flags :=
  if arg = "--number-nonblank" then { f with number_nonblank := true, number := false }
  else if arg = "--show-ends" then { f with show_ends := true }
  else if arg = "--number" then { f with number := true, number_nonblank := false }
  else if arg = "--squeeze-blank" then { f with squeeze_blank := true }
  else if arg = "--show-tabs" then { f with show_tabs := true, show_nonprinting := false }
  else if arg = "--show-nonprinting" then { f with show_nonprinting := true, show_tabs := false }
  else f

/-- The `switch` of lines 86-130 for the character `ch` of the argument `arg`:
the new flags, or `none` for the `default` case (`return 1`). The case `-`
ends in `break`, which leaves the `switch` only: the loop over the characters
goes on. -/
def parse_char (arg : String) (f : Flags) (ch : Char) : Option Flags :=
  if ch = 'b' then some { f with number_nonblank := true, number := false }
  else if ch = 'E' then some { f with show_ends := true }
  else if ch = 'n' then some { f with number := true, number_nonblank := false }
  else if ch = 's' then some { f with squeeze_blank := true }
  else if ch = 'T' then some { f with show_tabs := true }
  else if ch = 'v' then some { f with show_nonprinting := true }
  else if ch = '-' then some (long_option arg f)
  else none

/-- The loop `for (int j = 1; j < len; ++j)` of lines 85-131 over the
characters `argv[i][j]` still to process: the flags when the loop is left, and
whether it ran to its end (`false`: `return 1` at line 129). -/
def parse_option (arg : String) : Flags → List Char → Flags × Bool
  | f, [] => (f, true)
  | f, ch :: rest =>
    match parse_char arg f ch with
    | none => (f, false)
    | some g => parse_option arg g rest

/-- Line 30: `#define PATH_LEN 256`. -/
def PATH_LEN : Nat := 256

/-- Line 31: `#define ARGS_MAX 16`. -/
def ARGS_MAX : Nat := 16

/-- The size of a pointer in bytes (LP64). -/
def POINTER_SIZE : Nat := 8

/-- The number of elements of the array `paths`, which line 75 allocates with
`sizeof(char) * PATH_LEN * ARGS_MAX` bytes for elements of type `char *`. -/
def PATHS_CAP : Nat := PATH_LEN * ARGS_MAX / POINTER_SIZE

/-- The outcome of the argument loop of `main`: `fail` when the loop is left
by `return 1` (lines 129, 137), `done` when it runs to its end, `overflow`
when line 140 stores outside the array `paths` (undefined behaviour). -/
inductive Parse where
  | fail (f : Flags)
  | done (f : Flags) (paths : List String)
  | overflow
  deriving DecidableEq

/-- The argument loop of `main` (lines 82-142) over the arguments still to
process, with the flags and the paths collected so far (`filec` is the length
of `paths`). An argument is the string of its characters; `int len =
strlen(argv[i])` (line 83) bounds the characters `argv[i][j]`, `1 <= j < len`,
that the inner loop processes. -/
def parse_args (access : String → Bool) : Flags → List String → List String → Parse
  | f, paths, [] => Parse.done f paths
  | f, paths, arg :: rest =>
    if 1 < int_of_size arg.length ∧ arg.toList.head? = some '-' then
      if (parse_option arg f (arg.toList.take (int_of_size arg.length).toNat).tail).2 then
        parse_args access
          (parse_option arg f (arg.toList.take (int_of_size arg.length).toNat).tail).1 paths rest
      else
        Parse.fail (parse_option arg f (arg.toList.take (int_of_size arg.length).toNat).tail).1
    else if access arg = false ∧ arg ≠ "-" then Parse.fail f
    else if paths.length < PATHS_CAP then parse_args access f (paths ++ [arg]) rest
    else Parse.overflow

/-- The `for` loop of `cat` (lines 172-227) over the paths still to process,
with the standard input not yet read: the value returned and the bytes written
to standard output. After `print_stdin` the standard input is at its end. -/
def cat_loop (w : World) (f : Flags) : List String → List Nat → Option (Nat × List Nat)
  | [], _ => some (0, [])
  | p :: ps, input =>
    if p = "-" then
      (print_stdin f w.stack input).bind fun out =>
        (cat_loop w f ps []).map fun r => (r.1, out ++ r.2)
    else
      match w.read p with
      | none => some (1, [])
      | some contents =>
        (print_file f (load contents)).bind fun out =>
          (cat_loop w f ps input).map fun r => (r.1, out ++ r.2)

/-- The function `cat` (lines 154-229) on the collected paths: standard input
when there is no path, the loop over the paths otherwise. -/
def cat_paths (w : World) (f : Flags) (paths : List String) : Option (Nat × List Nat) :=
  if paths = [] then (print_stdin f w.stack w.stdin).map fun out => (0, out)
  else cat_loop w f paths w.stdin

/-- The output of `print_version()` (lines 12-15). -/
def version_text : List Nat :=
  bytes "cat (canoutils)\nversion: 1.0.0\nby: Akos Szijgyarto (SzAkos04)\n"

/-- The output of `print_help()` (lines 17-21). -/
def help_text : List Nat :=
  bytes "Usage: cat [OPTION]... [FILE]...\nConcatenate FILE(s) to standard output.\n"

/-- The output of `print_incorrect_args()` (lines 23-27). -/
def incorrect_args_text : List Nat := bytes "incorrect arguments\nsee `cat --help`\n"

/-- The function `main` (lines 45-152) on the arguments `argv[1]`, ...,
`argv[argc - 1]`, the flags being all `false` on entry: the exit code and the
bytes written to standard output; `none` when the behaviour is undefined (a
read or a store outside an array, an overflow of the counter). -/
def main (w : World) (args : List String) : Option (Nat × List Nat) :=
  match args with
  | [] => (print_stdin no_flags w.stack w.stdin).map fun out => (0, out)
  | a1 :: rest =>
    if a1 = "--version" then
      if rest ≠ [] then some (1, incorrect_args_text) else some (0, version_text)
    else if a1 = "--help" then
      if rest ≠ [] then some (1, incorrect_args_text) else some (0, help_text)
    else
      match parse_args w.access no_flags [] (a1 :: rest) with
      | Parse.fail _ => some (1, [])
      | Parse.done f paths => cat_paths w f paths
      | Parse.overflow => none

/-- A small environment: one readable file `f` with the contents "a\tb\n",
empty standard input. -/
def world_one_file : World :=
  { access := fun p => p == "f", read := fun p => if p = "f" then some (bytes "a\tb\n") else none,
    stdin := [], stack := List.replicate BUF_MAX_LEN 0 }

/-- Both `squeeze_blank` and `number` set. -/
def squeeze_number : Flags := { no_flags with squeeze_blank := true, number := true }

/-- A zero-free buffer of `2^31` bytes, every byte the letter `a`: its length
does not fit an `int`. -/
def two_gib : List Nat := List.replicate 2147483648 97

/-- A zero-free buffer of `2^32 + 3` bytes: the line `a`, two empty lines,
then the letter `a` repeated; its length converted to `int` is 3. -/
def four_gib_lines : List Nat := 97 :: 10 :: 10 :: 10 :: List.replicate 4294967295 97

end Cat

namespace Cat

/-! ## The embedding computes the value form -/

theorem strlen_append_zero (b junk : List Nat) (h0 : 0 ∉ b) :
    strlen (b ++ 0 :: junk) = some b.length := by
  induction b with
  | nil => simp [strlen]
  | cons c cs ih =>
    have hc : c ≠ 0 := fun h => h0 (by simp [h])
    have hcs : 0 ∉ cs := fun h => h0 (by simp [h])
    simp [strlen, hc, ih hcs]

theorem int_of_size_of_le (n : Nat) (h : n ≤ INT_MAX) : int_of_size n = (n : Int) := by
  unfold INT_MAX at h
  have hm : n % 4294967296 = n := Nat.mod_eq_of_lt (by omega)
  unfold int_of_size
  rw [hm, if_pos (by unfold INT_MAX; exact h)]

/-- The bound of the loop of `print_file` is at most `INT_MAX`: the index
satisfies `i < len <= INT_MAX` in every iteration, so `++i`, `i + 1` and
`i + 2` (computed only after `i + 1 < len`) stay in the range of `int`. -/
theorem int_of_size_toNat_le (n : Nat) : (int_of_size n).toNat ≤ INT_MAX := by
  unfold int_of_size
  split_ifs with h
  · rw [Int.toNat_ofNat]; exact h
  · have hm : n % 4294967296 < 4294967296 := Nat.mod_lt _ (by decide)
    have : ((n % 4294967296 : Nat) : Int) - 4294967296 ≤ 0 := by omega
    rw [Int.toNat_eq_zero.mpr this]
    exact Nat.zero_le _

theorem incr_lines_of_lt (lines : Nat) (h : lines < INT_MAX) :
    incr_lines lines = some (lines + 1) := by
  simp [incr_lines, h]

theorem ends_number_eq (f : Flags) (lines c c1 : Nat) (h : c1 ≠ 0 → lines < INT_MAX) :
    ends_number f (fun _ => some c1) lines c = some (ends_number_v f lines c c1) := by
  unfold ends_number ends_number_v
  by_cases h1 : c1 = 0
  · cases hn : f.number <;> by_cases hc : c = 10 <;> simp [hc, h1]
  · have hi := incr_lines_of_lt lines (h h1)
    cases hn : f.number <;> by_cases hc : c = 10 <;> simp [hc, h1, hi]

theorem nonblank_down_eq (f : Flags) (lines c c1 : Nat) (h : c1 ≠ 0 → lines < INT_MAX) :
    nonblank_down f (fun _ => some c1) lines c = some (nonblank_down_v f lines c c1) := by
  unfold nonblank_down nonblank_down_v
  rw [ends_number_eq f lines c c1 h]
  by_cases h1 : c1 = 0
  · cases hn : f.number_nonblank <;> by_cases hc : c = 10 <;> simp [hc, h1]
  · have hi := incr_lines_of_lt lines (h h1)
    cases hn : f.number_nonblank <;> by_cases hc : c = 10 <;> by_cases h2 : c1 = 10 <;>
      simp [hc, h1, h2, hi]

theorem loop_body_eq (f : Flags) (buf : List Nat) (i lines c : Nat) (rest junk : List Nat)
    (hd : buf.drop i = c :: (rest ++ 0 :: junk)) (hl : lines + rest.length ≤ INT_MAX) :
    loop_body f buf ((i + 1 + rest.length : Nat) : Int) i lines =
      some (step_v f lines c rest) := by
  have h0 : buf[i]? = some c := by
    have := List.getElem?_drop buf i 0
    rw [hd] at this; simpa using this.symm
  have h1 : buf[i + 1]? = some ((rest ++ 0 :: junk).headD 0) := by
    have := List.getElem?_drop buf i 1
    rw [hd] at this
    rw [← this]; cases rest <;> simp
  unfold loop_body step_v
  rw [h0]
  simp only [Option.some_bind]
  rw [h1]
  rcases rest with _ | ⟨c1, _ | ⟨c2, r⟩⟩
  · have hlt : ¬ ((i : Int) + 1 < ((i + 1 + ([] : List Nat).length : Nat) : Int)) := by
      simp
    simp only [hlt, if_false]
    simp [nonblank_down_eq]
  · have hlt1 : (i : Int) + 1 < ((i + 1 + [c1].length : Nat) : Int) := by
      simp only [List.length_singleton]; omega
    have hlt2 : ¬ ((i : Int) + 2 < ((i + 1 + [c1].length : Nat) : Int)) := by
      simp only [List.length_singleton]; omega
    have hlines : lines < INT_MAX := by
      simp only [List.length_singleton] at hl; omega
    simp only [hlt1, hlt2, if_true, if_false, Option.some_bind]
    by_cases hs : (f.squeeze_blank && c == 10) = true <;> by_cases hc1 : c1 = 10 <;>
      simp [hs, hc1, hlines, nonblank_down_eq]
  · have h2 : buf[i + 2]? = some c2 := by
      have := List.getElem?_drop buf i 2
      rw [hd] at this
      rw [← this]; simp
    have hlt1 : (i : Int) + 1 < ((i + 1 + (c1 :: c2 :: r).length : Nat) : Int) := by
      simp only [List.length_cons]; omega
    have hlt2 : (i : Int) + 2 < ((i + 1 + (c1 :: c2 :: r).length : Nat) : Int) := by
      simp only [List.length_cons]; omega
    have hlines : lines < INT_MAX := by
      simp only [List.length_cons] at hl; omega
    have hi := incr_lines_of_lt lines hlines
    simp only [hlt1, hlt2, if_true, Option.some_bind, h2]
    by_cases hs : (f.squeeze_blank && c == 10) = true <;> by_cases hc1 : c1 = 10 <;>
      by_cases hc2 : c2 = 10 <;> cases hn : f.number <;>
      simp [hs, hc1, hc2, hi, hlines, nonblank_down_eq]

theorem step_v_snd_le (f : Flags) (lines c : Nat) (rest : List Nat) :
    (step_v f lines c rest).2 ≤ lines + 1 := by
  unfold step_v nonblank_down_v ends_number_v
  split_ifs <;> try split
  all_goals first | (split_ifs <;> simp) | simp

theorem scan_eq (f : Flags) (buf : List Nat) (s junk : List Nat) :
    ∀ (i lines : Nat), buf.drop i = s ++ 0 :: junk → lines + s.length ≤ INT_MAX + 1 →
      scan f buf ((i + s.length : Nat) : Int) s.length i lines = some (scan_v f s lines) := by
  induction s with
  | nil => intro i lines _ _; simp [scan, scan_v]
  | cons c rest ih =>
    intro i lines hd hl
    have hd1 : buf.drop (i + 1) = rest ++ 0 :: junk := by
      rw [← List.tail_drop, hd]; rfl
    have hl' : lines + rest.length ≤ INT_MAX := by
      simp only [List.length_cons] at hl; omega
    have hb := loop_body_eq f buf i lines c rest junk (by simpa using hd) hl'
    have hlen : i + (rest.length + 1) = i + 1 + rest.length := by omega
    have hs := step_v_snd_le f lines c rest
    have ih1 := ih (i + 1) (step_v f lines c rest).2 hd1 (by omega)
    simp only [List.length_cons, scan, scan_v]
    rw [hlen, hb]
    simp only [Option.some_bind]
    rw [ih1]; rfl

theorem pre_line_eq (f : Flags) (b junk : List Nat)
    (h : f.number_nonblank = false ∨ b ≠ [] ∨ junk ≠ []) :
    pre_line f (b ++ 0 :: junk) = some (pre_line_v f b junk) := by
  unfold pre_line pre_line_v
  cases hn : f.number_nonblank
  · simp
  · rcases b with _ | ⟨c0, _ | ⟨c1, r⟩⟩
    · rcases junk with _ | ⟨j, js⟩
      · simp [hn] at h
      · by_cases hj : j = 0 <;> simp [hj]
    · by_cases hc0 : c0 = 10 <;> simp [hc0]
    · by_cases hc0 : c0 = 10 <;> by_cases hc1 : c1 = 0 <;> simp [hc0, hc1]

/-- On a zero-terminated array with zero-free contents `b` of at most
`INT_MAX` bytes (and any bytes `junk` after the terminator) `print_file`
returns, and writes the pre-line numbering followed by the output of the loop
over `b`. The one excluded case is `number_nonblank` on an array that holds
the terminator alone, where `buf[1]` is outside the array. -/
theorem print_file_eq (f : Flags) (b junk : List Nat) (h0 : 0 ∉ b) (hb : b.length ≤ INT_MAX)
    (h : f.number_nonblank = false ∨ b ≠ [] ∨ junk ≠ []) :
    print_file f (b ++ 0 :: junk) = some (pre_line_v f b junk ++ scan_v f b 1) := by
  unfold print_file
  rw [pre_line_eq f b junk h, strlen_append_zero b junk h0]
  simp only [Option.some_bind]
  have := scan_eq f (b ++ 0 :: junk) b junk 0 1 (by simp) (by omega)
  simp only [Nat.zero_add] at this
  rw [int_of_size_of_le b.length hb, Int.toNat_ofNat, this]; rfl

theorem cat_file_eq (f : Flags) (b : List Nat) (h0 : 0 ∉ b) (hb : b.length ≤ INT_MAX)
    (h : f.number_nonblank = false ∨ b ≠ []) :
    print_file f (load b) = some (pre_line_v f b [] ++ scan_v f b 1) := by
  unfold load
  exact print_file_eq f b [] h0 hb (by tauto)

/-- When `strlen(buf)` converted to `int` is zero or negative the loop of
`print_file` does not run: only the pre-line numbering is written. -/
theorem print_file_of_len_nonpos (f : Flags) (b junk : List Nat) (h0 : 0 ∉ b)
    (hw : int_of_size b.length ≤ 0) :
    print_file f (b ++ 0 :: junk) = pre_line f (b ++ 0 :: junk) := by
  unfold print_file
  rw [strlen_append_zero b junk h0]
  have ht : (int_of_size b.length).toNat = 0 := Int.toNat_eq_zero.mpr hw
  simp only [Option.some_bind, ht, scan, Option.map_some', List.append_nil]
  cases pre_line f (b ++ 0 :: junk) <;> rfl

/-! ## Buffers whose length does not fit an `int` -/

theorem pre_line_of_not_nonblank (f : Flags) (buf : List Nat) (hn : f.number_nonblank = false) :
    pre_line f buf = some (if f.number then num_field 1 else []) := by
  unfold pre_line
  rw [hn]
  simp

theorem two_gib_length : two_gib.length = 2147483648 := List.length_replicate _ _

theorem two_gib_zero_free : 0 ∉ two_gib := fun h =>
  absurd (List.mem_replicate.mp h).2 (by decide)

theorem two_gib_mem : 97 ∈ two_gib := List.mem_replicate.mpr ⟨by decide, rfl⟩

theorem two_gib_len_nonpos : int_of_size two_gib.length ≤ 0 := by
  rw [two_gib_length]; decide

/-- For a zero-free buffer of `2^31` bytes `int len = strlen(buf)` is negative:
whatever flags but `number_nonblank` are set, `print_file` writes the pre-line
numbering and nothing of the buffer. -/
theorem print_file_two_gib (f : Flags) (hn : f.number_nonblank = false) :
    print_file f (load two_gib) = some (if f.number then num_field 1 else []) := by
  unfold load
  rw [print_file_of_len_nonpos f two_gib [] two_gib_zero_free two_gib_len_nonpos]
  exact pre_line_of_not_nonblank f _ hn

theorem getElem?_take_succ_le (buf : List Nat) (m j : Nat) (h : j ≤ m) :
    (buf.take (m + 1))[j]? = buf[j]? :=
  List.getElem?_take_of_lt (by omega)

theorem loop_body_take (f : Flags) (buf : List Nat) (m i lines : Nat) (hi : i < m) :
    loop_body f (buf.take (m + 1)) (m : Int) i lines = loop_body f buf (m : Int) i lines := by
  unfold loop_body
  rw [getElem?_take_succ_le buf m i (by omega), getElem?_take_succ_le buf m (i + 1) (by omega)]
  by_cases h2 : (i : Int) + 2 < (m : Int)
  · rw [getElem?_take_succ_le buf m (i + 2) (by omega)]
  · simp only [h2, if_false]

/-- The loop reads no index above its bound: it runs alike on the array cut
after index `m` when the bound is `m`. -/
theorem scan_take (f : Flags) (buf : List Nat) (m : Nat) :
    ∀ n i lines : Nat, i + n ≤ m →
      scan f (buf.take (m + 1)) (m : Int) n i lines = scan f buf (m : Int) n i lines := by
  intro n
  induction n with
  | zero => intro i lines _; rfl
  | succ n ih =>
    intro i lines h
    simp only [scan]
    rw [loop_body_take f buf m i lines (by omega)]
    cases loop_body f buf (m : Int) i lines with
    | none => rfl
    | some r => simp only [Option.some_bind]; rw [ih (i + 1) r.2 (by omega)]

theorem four_gib_lines_zero_free : 0 ∉ four_gib_lines := by
  intro h
  unfold four_gib_lines at h
  rcases List.mem_cons.mp h with h | h
  · exact absurd h (by decide)
  rcases List.mem_cons.mp h with h | h
  · exact absurd h (by decide)
  rcases List.mem_cons.mp h with h | h
  · exact absurd h (by decide)
  rcases List.mem_cons.mp h with h | h
  · exact absurd h (by decide)
  · exact absurd (List.mem_replicate.mp h).2 (by decide)

theorem four_gib_lines_length : four_gib_lines.length = 4294967299 := by
  unfold four_gib_lines
  rw [List.length_cons, List.length_cons, List.length_cons, List.length_cons,
    List.length_replicate]

/-- For the buffer of `2^32 + 3` bytes `int len = strlen(buf)` is 3: the loop
of `print_file` runs over the first three bytes only, and reads the fourth. -/
theorem print_file_four_gib_lines (f : Flags) (hn : f.number_nonblank = false) :
    print_file f (load four_gib_lines) =
      (scan f [97, 10, 10, 10] 3 3 0 1).map fun out =>
        (if f.number then num_field 1 else []) ++ out := by
  have hlen : int_of_size four_gib_lines.length = 3 := by
    rw [four_gib_lines_length]; decide
  have ht : (3 : Int).toNat = 3 := rfl
  have htake : (four_gib_lines ++ [0]).take (3 + 1) = [97, 10, 10, 10] := rfl
  have hscan : scan f [97, 10, 10, 10] 3 3 0 1 = scan f (four_gib_lines ++ [0]) 3 3 0 1 := by
    have h := scan_take f (four_gib_lines ++ [0]) 3 3 0 1 (by omega)
    rw [htake] at h
    exact h
  unfold print_file load
  rw [strlen_append_zero four_gib_lines [] four_gib_lines_zero_free]
  rw [pre_line_of_not_nonblank f _ hn, Option.some_bind, Option.some_bind, hlen, ht, ← hscan]

/-! ## No flags: the identity transform -/

theorem step_v_no_flags (lines c : Nat) (rest : List Nat) :
    step_v no_flags lines c rest = ([c], lines) := by
  simp [step_v, nonblank_down_v, ends_number_v, emit_char, no_flags]

theorem scan_v_no_flags (b : List Nat) (lines : Nat) : scan_v no_flags b lines = b := by
  induction b with
  | nil => rfl
  | cons c rest ih => simp [scan_v, step_v_no_flags, ih]

/-- C1 (as stated) fails: a file whose contents are the three bytes `a`,
0x00, `b` is written as the single byte `a`; and of a zero-free file of `2^31`
bytes nothing is written, its length not fitting the `int len` of
`print_file`. -/
theorem C1_zero_byte_truncates :
    print_file no_flags (load [97, 0, 98]) = some [97] ∧
      cat no_flags [[97, 0, 98]] ≠ some [97, 0, 98] ∧
      0 ∉ two_gib ∧ print_file no_flags (load two_gib) = some [] ∧ two_gib ≠ [] :=
  ⟨by decide, by decide, two_gib_zero_free, print_file_two_gib no_flags rfl,
    List.ne_nil_of_mem two_gib_mem⟩

/-- C1 (amended): for every zero-free byte sequence of at most `INT_MAX`
bytes loaded by `cat` and handed to `print_file` with all six flags false, the
bytes written equal the input bytes exactly. -/
theorem C1_identity_zero_free (b : List Nat) (h0 : 0 ∉ b) (hb : b.length ≤ INT_MAX) :
    print_file no_flags (load b) = some b ∧ cat no_flags [b] = some b := by
  have h := cat_file_eq no_flags b h0 hb (Or.inl rfl)
  have hp : pre_line_v no_flags b [] = [] := by simp [pre_line_v, no_flags]
  rw [hp, scan_v_no_flags] at h
  simp only [List.nil_append] at h
  exact ⟨h, by simp [cat, h]⟩

theorem C1_identity_zero_free_witness :
    (0 ∉ bytes "a\nb\n" ∧ (bytes "a\nb\n").length ≤ INT_MAX) ∧
      print_file no_flags (load (bytes "a\nb\n")) = some (bytes "a\nb\n") ∧
      cat no_flags [bytes "a\nb\n"] = some (bytes "a\nb\n") :=
  ⟨⟨by decide, by decide⟩, C1_identity_zero_free (bytes "a\nb\n") (by decide) (by decide)⟩

/-! ## `number`: every line numbered -/

theorem step_v_only_number (lines c : Nat) (rest : List Nat) (h0 : 0 ∉ rest) :
    step_v only_number lines c rest =
      if c = 10 ∧ rest ≠ [] then (nl_num_field (lines + 1), lines + 1) else ([c], lines) := by
  cases rest with
  | nil => simp [step_v, nonblank_down_v, ends_number_v, emit_char, only_number, no_flags]
  | cons c1 r =>
    have hc1 : c1 ≠ 0 := fun h => h0 (by simp [h])
    simp [step_v, nonblank_down_v, ends_number_v, emit_char, only_number, no_flags, hc1]

theorem segments_ne_nil (b : List Nat) (hb : b ≠ []) : segments b ≠ [] := by
  cases b with
  | nil => exact absurd rfl hb
  | cons c cs =>
    unfold segments
    split
    · simp
    · split <;> simp

theorem number_scan_eq (b : List Nat) :
    ∀ k : Nat, b ≠ [] → 0 ∉ b →
      num_field k ++ scan_v only_number b k = number_ref k (segments b) := by
  induction b with
  | nil => intro k hb; exact absurd rfl hb
  | cons c rest ih =>
    intro k _ h0
    have h0r : 0 ∉ rest := fun h => h0 (by simp [h])
    rw [scan_v, step_v_only_number k c rest h0r]
    by_cases hr : rest = []
    · subst hr
      by_cases hc : c = 10 <;> simp [hc, scan_v, segments, number_ref]
    · by_cases hc : c = 10
      · subst hc
        have := ih (k + 1) hr h0r
        simp [hr, segments, number_ref, nl_num_field, ← this]
      · have := ih k hr h0r
        obtain ⟨s, ss, hs⟩ := List.exists_cons_of_ne_nil (segments_ne_nil rest hr)
        rw [hs, number_ref, List.append_assoc, List.append_cancel_left_eq] at this
        simp [hc, segments, hs, number_ref, this]

theorem length_le_number_ref (b : List Nat) :
    ∀ k : Nat, b.length ≤ (number_ref k (segments b)).length := by
  induction b with
  | nil => intro k; simp
  | cons c cs ih =>
    intro k
    by_cases hc : c = 10
    · have := ih (k + 1)
      simp only [segments, hc, if_true, number_ref, List.length_append, List.length_cons,
        List.length_nil]
      omega
    · cases hs : segments cs with
      | nil =>
        have hcs : cs = [] := by
          by_contra h
          exact segments_ne_nil cs h hs
        subst hcs
        simp [segments, hc, number_ref]
      | cons l ls =>
        have := ih k
        rw [hs] at this
        simp only [number_ref, List.length_append] at this
        simp only [segments, hc, if_false, hs, number_ref, List.length_append, List.length_cons]
        omega

/-- C3 (as stated) fails: for the zero-free buffer of `2^31` bytes, with only
`number` set, `print_file` writes the first numbering field and no byte of the
buffer, its length not fitting the `int len` of the loop. -/
theorem C3_two_gib_not_numbered :
    two_gib ≠ [] ∧ 0 ∉ two_gib ∧
      print_file only_number (load two_gib) = some (num_field 1) ∧
      number_ref 1 (segments two_gib) ≠ num_field 1 := by
  refine ⟨List.ne_nil_of_mem two_gib_mem, two_gib_zero_free,
    print_file_two_gib only_number rfl, ?_⟩
  intro h
  have hle := length_le_number_ref two_gib 1
  rw [h, two_gib_length] at hle
  have h8 : (num_field 1).length = 8 := by decide
  omega

/-- C3 (amended): for every non-empty zero-free buffer of at most `INT_MAX`
bytes, with only `number` set, the output of `print_file` is the concatenation
over the lines of the buffer, in order, of the numbering field of k (counting
from 1) followed by the k-th line unchanged, its newline included. -/
theorem C3_number_all_lines (b : List Nat) (hb : b ≠ []) (h0 : 0 ∉ b)
    (hl : b.length ≤ INT_MAX) :
    print_file only_number (load b) = some (number_ref 1 (segments b)) := by
  rw [cat_file_eq only_number b h0 hl (Or.inl rfl), ← number_scan_eq b 1 hb h0]
  simp [pre_line_v, only_number, no_flags]

theorem C3_number_all_lines_witness :
    print_file only_number (load (bytes "a\nb\n")) =
        some (number_ref 1 (segments (bytes "a\nb\n"))) ∧
      number_ref 1 (segments (bytes "a\nb\n")) = bytes "     1  a\n     2  b\n" :=
  ⟨C3_number_all_lines (bytes "a\nb\n") (by decide) (by decide) (by decide), by decide⟩

/-! ## `number_nonblank` -/

/-- C4: at the buffer "\na\n", which begins with a blank line, `print_file`
with only `number_nonblank` set numbers the first non-blank line 2, not 1: the
counter starts at 1 and is incremented before the first number is written. -/
theorem C4_leading_blank_numbers_from_two :
    print_file only_number_nonblank (load (bytes "\na\n")) = some (bytes "\n     2  a\n") ∧
      print_file only_number_nonblank (load (bytes "\na\n")) ≠ some (bytes "\n     1  a\n") := by
  decide

/-! ## `squeeze_blank` -/

/-- C5: at the buffer "\n\n\na\n", which begins with three blank lines,
`print_file` with only `squeeze_blank` set writes "\n\na\n", whose first two
lines are both empty. -/
theorem C5_leading_blank_run_kept_double :
    print_file only_squeeze (load (bytes "\n\n\na\n")) = some (bytes "\n\na\n") ∧
      adjacent_blank (segments (bytes "\n\na\n")) = true := by
  decide

/-- C6: at the buffer "a\n\n", whose last line is an isolated blank line,
`print_file` with only `squeeze_blank` set writes "a\n": the blank line is
dropped. -/
theorem C6_trailing_blank_line_dropped :
    print_file only_squeeze (load (bytes "a\n\n")) = some (bytes "a\n") ∧
      segments (bytes "a\n\n") = [bytes "a\n", bytes "\n"] ∧
      segments (bytes "a\n") = [bytes "a\n"] := by
  decide

theorem step_v_only_squeeze (lines c : Nat) (rest : List Nat) :
    step_v only_squeeze lines c rest =
      if c = 10 ∧ rest.head? = some 10 then
        (match rest.tail with
          | [] => []
          | c2 :: _ => if c2 ≠ 10 then [10] else [], lines)
      else ([c], lines) := by
  by_cases h : c = 10 ∧ rest.head? = some 10
  · obtain ⟨hc, hr⟩ := h
    rcases rest with _ | ⟨c1, _ | ⟨c2, r⟩⟩
    · simp at hr
    · simp [step_v, only_squeeze, no_flags, hc, hr]
    · have hc1 : c1 = 10 := by simpa using hr
      by_cases h2 : c2 = 10 <;> simp [step_v, only_squeeze, no_flags, hc, hc1, h2]
  · rw [if_neg h]
    have h' : (c == 10 && rest.head? == some 10) = false := by
      by_cases hc : c = 10
      · have hr : rest.head? ≠ some 10 := fun hr => h ⟨hc, hr⟩
        simp [hc, hr]
      · simp [hc]
    simp [step_v, nonblank_down_v, ends_number_v, emit_char, only_squeeze, no_flags, h']

theorem split_lines_cons_nl (s : List Nat) : split_lines (10 :: s) = [] :: split_lines s := by
  simp [split_lines]

theorem split_lines_ne_nil (s : List Nat) : split_lines s ≠ [] := by
  cases s with
  | nil => simp [split_lines]
  | cons c cs =>
    unfold split_lines
    split
    · simp
    · split <;> simp

theorem split_lines_eq_cons (s : List Nat) :
    split_lines s = (split_lines s).headD [] :: (split_lines s).tail := by
  cases h : split_lines s with
  | nil => exact absurd h (split_lines_ne_nil s)
  | cons l t => rfl

theorem split_lines_cons_other (c : Nat) (s : List Nat) (hc : c ≠ 10) :
    split_lines (c :: s) = (c :: (split_lines s).headD []) :: (split_lines s).tail := by
  cases h : split_lines s with
  | nil => exact absurd h (split_lines_ne_nil s)
  | cons l t => simp [split_lines, hc, h]

theorem filter_nonempty_cons (hd : List Nat) (tl : List (List Nat)) :
    (hd :: tl).filter (fun l => !l.isEmpty) =
      (if hd = [] then [] else [hd]) ++ tl.filter (fun l => !l.isEmpty) := by
  cases hd <;> simp [List.filter_cons]

theorem nonblank_lines_eq_key (s : List Nat) :
    nonblank_lines s =
      (if (line_key s).1 = [] then [] else [(line_key s).1]) ++ (line_key s).2 := by
  unfold nonblank_lines line_key
  conv_lhs => rw [split_lines_eq_cons s]
  exact filter_nonempty_cons _ _

theorem line_key_cons_nl (s : List Nat) : line_key (10 :: s) = ([], nonblank_lines s) := by
  simp [line_key, split_lines_cons_nl, nonblank_lines]

theorem line_key_cons_other (c : Nat) (s : List Nat) (hc : c ≠ 10) :
    line_key (c :: s) = (c :: (line_key s).1, (line_key s).2) := by
  simp [line_key, split_lines_cons_other c s hc]

theorem line_key_cons_congr (c : Nat) (x y : List Nat) (h : line_key x = line_key y) :
    line_key (c :: x) = line_key (c :: y) := by
  by_cases hc : c = 10
  · subst hc
    rw [line_key_cons_nl, line_key_cons_nl, nonblank_lines_eq_key x, nonblank_lines_eq_key y, h]
  · rw [line_key_cons_other c x hc, line_key_cons_other c y hc, h]

theorem line_key_double_nl (r : List Nat) : line_key (10 :: 10 :: r) = line_key (10 :: r) := by
  rw [line_key_cons_nl, line_key_cons_nl]
  simp [nonblank_lines, split_lines_cons_nl]

theorem line_key_append_congr (e x y : List Nat) (h : line_key x = line_key y) :
    line_key (e ++ x) = line_key (e ++ y) := by
  induction e with
  | nil => exact h
  | cons c e ih => exact line_key_cons_congr c _ _ ih

theorem line_key_scan_v_only_squeeze (s : List Nat) :
    ∀ lines : Nat, line_key (scan_v only_squeeze s lines) = line_key s := by
  induction s with
  | nil => intro lines; rfl
  | cons c rest ih =>
    intro lines
    rw [scan_v, line_key_append_congr _ _ _ (ih _), step_v_only_squeeze]
    by_cases h : c = 10 ∧ rest.head? = some 10
    · rw [if_pos h]
      obtain ⟨hc, hr⟩ := h
      subst hc
      rcases rest with _ | ⟨c1, r⟩
      · simp at hr
      · have hc1 : c1 = 10 := by simpa using hr
        subst hc1
        rcases r with _ | ⟨c2, r2⟩
        · simp [line_key_double_nl]
        · by_cases h2 : c2 = 10 <;> simp [h2, line_key_double_nl]
    · rw [if_neg h]; rfl

theorem filter_scan_v_only_squeeze (s : List Nat) :
    ∀ lines : Nat, (scan_v only_squeeze s lines).filter (fun c => c != 10) =
      s.filter (fun c => c != 10) := by
  induction s with
  | nil => intro lines; rfl
  | cons c rest ih =>
    intro lines
    rw [scan_v, step_v_only_squeeze]
    by_cases h : c = 10 ∧ rest.head? = some 10
    · rw [if_pos h]
      obtain ⟨hc, _⟩ := h
      rcases rest.tail with _ | ⟨c2, r2⟩
      · simp [ih, hc]
      · by_cases h2 : c2 = 10 <;> simp [ih, hc, h2]
    · rw [if_neg h]
      simp [ih, List.filter_cons]

/-- C7 (as stated) fails: for the zero-free buffer of `2^31` bytes, with only
`squeeze_blank` set, `print_file` writes nothing, so the output with all
newlines deleted is empty where the input with all newlines deleted is not. -/
theorem C7_two_gib_not_written :
    0 ∉ two_gib ∧
      (print_file only_squeeze (load two_gib)).map (List.filter fun c => c != 10) = some [] ∧
      (two_gib.filter fun c => c != 10) ≠ [] := by
  refine ⟨two_gib_zero_free, ?_, ?_⟩
  · rw [print_file_two_gib only_squeeze rfl]; rfl
  · exact List.ne_nil_of_mem (List.mem_filter.mpr ⟨two_gib_mem, by decide⟩)

/-- C7 (amended): for every zero-free buffer of at most `INT_MAX` bytes, with
only `squeeze_blank` set, `print_file` returns, the non-empty lines of its
output are the non-empty lines of the input (same lines, same order), and the
output with all newlines deleted equals the input with all newlines deleted. -/
theorem C7_squeeze_keeps_nonblank_lines (b : List Nat) (h0 : 0 ∉ b)
    (hl : b.length ≤ INT_MAX) :
    (print_file only_squeeze (load b)).map nonblank_lines = some (nonblank_lines b) ∧
      (print_file only_squeeze (load b)).map (List.filter fun c => c != 10) =
        some (b.filter fun c => c != 10) := by
  rw [cat_file_eq only_squeeze b h0 hl (Or.inl rfl)]
  have hp : pre_line_v only_squeeze b [] = [] := by simp [pre_line_v, only_squeeze, no_flags]
  rw [hp]
  simp only [List.nil_append, Option.map_some']
  refine ⟨?_, ?_⟩
  · rw [nonblank_lines_eq_key, nonblank_lines_eq_key b, line_key_scan_v_only_squeeze]
  · rw [filter_scan_v_only_squeeze]

theorem C7_squeeze_keeps_nonblank_lines_witness :
    ((print_file only_squeeze (load (bytes "a\n\n\nb\nc\n"))).map nonblank_lines =
        some (nonblank_lines (bytes "a\n\n\nb\nc\n")) ∧
      (print_file only_squeeze (load (bytes "a\n\n\nb\nc\n"))).map
          (List.filter fun c => c != 10) =
        some ((bytes "a\n\n\nb\nc\n").filter fun c => c != 10)) ∧
      nonblank_lines (bytes "a\n\n\nb\nc\n") = [bytes "a", bytes "b", bytes "c"] :=
  ⟨C7_squeeze_keeps_nonblank_lines (bytes "a\n\n\nb\nc\n") (by decide) (by decide), by decide⟩

/-! ## `show_ends` -/

/-- C8: with `show_ends` and `number_nonblank` set the buffer "a\nb\n" is
written as "     1  a\n     2  b$\n", and with `show_ends` and `squeeze_blank`
set the buffer "a\n\n\nb\n" is written as "a\n$\nb$\n": in both the newline
after `a` is not preceded by `$`. -/
theorem C8_newline_without_marker :
    print_file { no_flags with show_ends := true, number_nonblank := true }
        (load (bytes "a\nb\n")) = some (bytes "     1  a\n     2  b$\n") ∧
      unmarked_newline none (bytes "     1  a\n     2  b$\n") = true ∧
      print_file { no_flags with show_ends := true, squeeze_blank := true }
        (load (bytes "a\n\n\nb\n")) = some (bytes "a\n$\nb$\n") ∧
      unmarked_newline none (bytes "a\n$\nb$\n") = true := by
  decide

/-! ## `show_tabs` -/

theorem step_v_only_show_tabs (lines c : Nat) (rest : List Nat) :
    step_v only_show_tabs lines c rest = (if c = 9 then [94, 73] else [c], lines) := by
  by_cases hc : c = 9 <;>
    simp [step_v, nonblank_down_v, ends_number_v, emit_char, only_show_tabs, no_flags, hc]

theorem scan_v_only_show_tabs (b : List Nat) (lines : Nat) :
    scan_v only_show_tabs b lines = show_tabs_ref b := by
  induction b with
  | nil => rfl
  | cons c rest ih => simp [scan_v, step_v_only_show_tabs, ih, show_tabs_ref]

/-- C9 (as stated) fails: for the zero-free buffer of `2^31` bytes, with only
`show_tabs` set, `print_file` writes nothing, where the input with its tabs
replaced is not empty. -/
theorem C9_two_gib_not_written :
    0 ∉ two_gib ∧ print_file only_show_tabs (load two_gib) = some [] ∧
      show_tabs_ref two_gib ≠ [] := by
  refine ⟨two_gib_zero_free, print_file_two_gib only_show_tabs rfl, ?_⟩
  have h : 97 ∈ show_tabs_ref two_gib :=
    List.mem_flatMap.mpr ⟨97, two_gib_mem, by decide⟩
  exact List.ne_nil_of_mem h

/-- C9 (amended): for every zero-free buffer of at most `INT_MAX` bytes, with
only `show_tabs` set, the output of `print_file` is the input with every tab
byte replaced by the two bytes `^I` and every other byte copied unchanged, in
order. -/
theorem C9_show_tabs (b : List Nat) (h0 : 0 ∉ b) (hl : b.length ≤ INT_MAX) :
    print_file only_show_tabs (load b) = some (show_tabs_ref b) := by
  rw [cat_file_eq only_show_tabs b h0 hl (Or.inl rfl), scan_v_only_show_tabs]
  simp [pre_line_v, only_show_tabs, no_flags]

theorem C9_show_tabs_witness :
    print_file only_show_tabs (load (bytes "a\tb\n")) = some (show_tabs_ref (bytes "a\tb\n")) ∧
      show_tabs_ref (bytes "a\tb\n") = bytes "a^Ib\n" :=
  ⟨C9_show_tabs (bytes "a\tb\n") (by decide) (by decide), by decide⟩

/-! ## `show_nonprinting` -/

theorem high_bit_clear_lt (c : Nat) (hc : c < 256) (h : c &&& 0x80 = 0) : c < 128 := by
  revert h
  interval_cases c <;> decide

theorem emit_char_only_show_nonprinting (c : Nat) (hc : c < 256) :
    emit_char only_show_nonprinting c = caret_ref c := by
  unfold emit_char caret_ref isprint
  simp only [only_show_nonprinting, no_flags, Bool.false_and, Bool.true_and]
  by_cases hp : (0x20 ≤ c ∧ c ≤ 0x7E) ∨ c = 9 ∨ c = 10
  · rcases hp with ⟨h1, h2⟩ | h | h
    · simp [h1, h2]
    · subst h; decide
    · subst h; decide
  · have hp1 : ¬ (0x20 ≤ c ∧ c ≤ 0x7E) := fun h => hp (Or.inl h)
    have h9 : c ≠ 9 := fun h => hp (Or.inr (Or.inl h))
    have h10 : c ≠ 10 := fun h => hp (Or.inr (Or.inr h))
    by_cases hh : c &&& 0x80 = 0
    · have hlt := high_bit_clear_lt c hc hh
      have hm : (64 + c) % 256 = 64 + c := Nat.mod_eq_of_lt (by omega)
      simp [hp, hp1, h9, h10, hh, hm]
    · have hle : c &&& 0x7F ≤ 0x7F := Nat.and_le_right
      have hm : (64 + (c &&& 0x7F)) % 256 = 64 + (c &&& 0x7F) := Nat.mod_eq_of_lt (by omega)
      simp [hp, hp1, h9, h10, hh, hm]

theorem step_v_only_show_nonprinting (lines c : Nat) (rest : List Nat) :
    step_v only_show_nonprinting lines c rest = (emit_char only_show_nonprinting c, lines) := by
  simp [step_v, nonblank_down_v, ends_number_v, only_show_nonprinting, no_flags]

theorem scan_v_only_show_nonprinting (b : List Nat) (lines : Nat) (hb : ∀ x ∈ b, x < 256) :
    scan_v only_show_nonprinting b lines = show_nonprinting_ref b := by
  induction b with
  | nil => rfl
  | cons c rest ih =>
    have hc : c < 256 := hb c (by simp)
    have hr : ∀ x ∈ rest, x < 256 := fun x hx => hb x (by simp [hx])
    simp [scan_v, step_v_only_show_nonprinting, ih hr, show_nonprinting_ref,
      emit_char_only_show_nonprinting c hc]

/-- C10 (as stated) fails: for the zero-free buffer of `2^31` bytes, with
only `show_nonprinting` set, `print_file` writes nothing, where the reference
output is not empty. -/
theorem C10_two_gib_not_written :
    0 ∉ two_gib ∧ (∀ x ∈ two_gib, x < 256) ∧
      print_file only_show_nonprinting (load two_gib) = some [] ∧
      show_nonprinting_ref two_gib ≠ [] := by
  refine ⟨two_gib_zero_free, ?_, print_file_two_gib only_show_nonprinting rfl, ?_⟩
  · intro x hx
    rw [(List.mem_replicate.mp hx).2]
    decide
  · have h : 97 ∈ show_nonprinting_ref two_gib :=
      List.mem_flatMap.mpr ⟨97, two_gib_mem, by decide⟩
    exact List.ne_nil_of_mem h

/-- C10 (amended): for every zero-free buffer of at most `INT_MAX` bytes,
with only `show_nonprinting` set, the output of `print_file` is the
concatenation over the input bytes, in order, of the byte itself when it is
printable ASCII, a tab or a newline, of `M-^` and the byte `0x40 + (b & 0x7F)`
when its high bit is set, and of `^` and the byte `0x40 + b` otherwise. -/
theorem C10_show_nonprinting (b : List Nat) (h0 : 0 ∉ b) (hb : ∀ x ∈ b, x < 256)
    (hl : b.length ≤ INT_MAX) :
    print_file only_show_nonprinting (load b) = some (show_nonprinting_ref b) := by
  rw [cat_file_eq only_show_nonprinting b h0 hl (Or.inl rfl),
    scan_v_only_show_nonprinting b 1 hb]
  simp [pre_line_v, only_show_nonprinting, no_flags]

theorem C10_show_nonprinting_witness :
    print_file only_show_nonprinting (load [1, 97, 9, 200, 10]) =
        some (show_nonprinting_ref [1, 97, 9, 200, 10]) ∧
      show_nonprinting_ref [1, 97, 9, 200, 10] = [94, 65, 97, 9, 77, 45, 94, 136, 10] :=
  ⟨C10_show_nonprinting [1, 97, 9, 200, 10] (by decide) (by decide) (by decide), by decide⟩

/-! ## The argument loop of `main` -/

theorem long_option_exclusive (arg : String) (f : Flags)
    (hf : ¬ (f.number = true ∧ f.number_nonblank = true)) :
    ¬ ((long_option arg f).number = true ∧ (long_option arg f).number_nonblank = true) := by
  unfold long_option
  split_ifs <;> first | exact hf | simp

theorem parse_char_exclusive (arg : String) (f g : Flags) (ch : Char)
    (hf : ¬ (f.number = true ∧ f.number_nonblank = true))
    (h : parse_char arg f ch = some g) :
    ¬ (g.number = true ∧ g.number_nonblank = true) := by
  unfold parse_char at h
  split_ifs at h <;> cases h <;>
    first | exact hf | exact long_option_exclusive arg f hf | simp

theorem parse_option_exclusive (arg : String) (cs : List Char) :
    ∀ f : Flags, ¬ (f.number = true ∧ f.number_nonblank = true) →
      ¬ ((parse_option arg f cs).1.number = true ∧
        (parse_option arg f cs).1.number_nonblank = true) := by
  induction cs with
  | nil => intro f hf; exact hf
  | cons ch rest ih =>
    intro f hf
    unfold parse_option
    cases h : parse_char arg f ch with
    | none => exact hf
    | some g => exact ih g (parse_char_exclusive arg f g ch hf h)

/-- What holds of the two numbering flags in the argument loop: a single
character never leaves both set, `b` leaves `number_nonblank` set and `number`
clear, `n` leaves `number` set and `number_nonblank` clear, whatever the flags
were before. -/
theorem numbering_flags_exclusive (arg : String) (f : Flags) (cs : List Char) :
    (¬ (f.number = true ∧ f.number_nonblank = true) →
      ¬ ((parse_option arg f cs).1.number = true ∧
        (parse_option arg f cs).1.number_nonblank = true)) ∧
      parse_char arg f 'b' = some { f with number_nonblank := true, number := false } ∧
      parse_char arg f 'n' = some { f with number := true, number_nonblank := false } :=
  ⟨parse_option_exclusive arg cs f, by simp [parse_char], by simp [parse_char]⟩

/-- C11: the argument `--number-nonblank` does not leave `number_nonblank` set
and `number` clear: after the case `-` has done so the loop goes on to the
character `n`, which sets `number` and clears `number_nonblank`, and stops
with `return 1` at the character `u`. -/
theorem C11_long_number_nonblank_reversed :
    parse_option "--number-nonblank" no_flags "--number-nonblank".toList.tail =
        ({ no_flags with number := true }, false) ∧
      parse_args world_one_file.access no_flags [] ["--number-nonblank", "f"] =
        Parse.fail { no_flags with number := true } := by
  decide

/-- C12: for the arguments `-T -v f` both `show_tabs` and `show_nonprinting`
are set after parsing, and the tab of the file "a\tb\n" is written as `^I`
although `-v` comes last. -/
theorem C12_short_flags_do_not_clear :
    parse_args world_one_file.access no_flags [] ["-T", "-v", "f"] =
        Parse.done { no_flags with show_tabs := true, show_nonprinting := true } ["f"] ∧
      main world_one_file ["-T", "-v", "f"] = some (0, bytes "a^Ib\n") := by
  decide

/-- C13: each of the six long options, followed by the name of a readable
file, makes `main` return 1 without any output: the loop over the characters
of the option reaches a letter that is no short flag. -/
theorem C13_long_options_rejected :
    (["--number-nonblank", "--show-ends", "--number", "--squeeze-blank", "--show-tabs",
        "--show-nonprinting"].map fun o => main world_one_file [o, "f"]) =
      List.replicate 6 (some (1, [])) := by
  decide

/-! ## The first line under `number_nonblank`, and reads outside the array -/

/-- C15: for the one-byte buffer "a", with only `number_nonblank` set,
`print_file` writes no numbering field before the scan although the first line
is not empty; for "ab" it writes one. -/
theorem C15_single_byte_line_unnumbered :
    pre_line only_number_nonblank (load (bytes "a")) = some [] ∧
      print_file only_number_nonblank (load (bytes "a")) = some (bytes "a") ∧
      print_file only_number_nonblank (load (bytes "ab")) = some (bytes "     1  ab") := by
  decide

/-- C17: with only `show_nonprinting` set the byte 0x7F is written as `^` and
the byte 0xBF, and the byte 0xC1 as `M-^` and the byte 0x81: bytes that are
neither printable ASCII nor tab nor newline. -/
theorem C17_caret_byte_not_printable :
    print_file only_show_nonprinting (load [0x7F]) = some [94, 0xBF] ∧
      print_file only_show_nonprinting (load [0xC1]) = some [77, 45, 94, 0x81] ∧
      isprint 0xBF = false ∧ isprint 0x81 = false := by
  decide

/-- C18: for the empty buffer as `cat` allocates it (one byte, the
terminator), with `number_nonblank` set, the pre-line test reads `buf[1]`,
index 1 where the last index of the array is 0. -/
theorem C18_empty_buffer_read_outside :
    (load []).length = 1 ∧
      pre_line only_number_nonblank (load []) = none ∧
      print_file only_number_nonblank (load []) = none := by
  decide

/-! ## Errors in the arguments abort before any output -/

theorem take_line_append (n : Nat) :
    ∀ input : List Nat, (take_line n input).1 ++ (take_line n input).2 = input := by
  induction n with
  | zero => intro input; rfl
  | succ n ih =>
    intro input
    cases input with
    | nil => rfl
    | cons c cs =>
      by_cases hc : c = 10
      · simp [take_line, hc]
      · simp [take_line, hc, ih cs]

theorem take_line_length_le (n : Nat) :
    ∀ input : List Nat, (take_line n input).1.length ≤ n := by
  induction n with
  | zero => intro input; simp [take_line]
  | succ n ih =>
    intro input
    cases input with
    | nil => simp [take_line]
    | cons c cs =>
      by_cases hc : c = 10
      · simp [take_line, hc]
      · have := ih cs
        simp [take_line, hc]
        omega

theorem take_line_ne_nil (n : Nat) (input : List Nat) (hi : input ≠ []) :
    (take_line (n + 1) input).1 ≠ [] := by
  cases input with
  | nil => exact absurd rfl hi
  | cons c cs => by_cases hc : c = 10 <;> simp [take_line, hc]

theorem take_line_squeeze (n : Nat) :
    ∀ (input : List Nat) (lines : Nat),
      scan_v only_squeeze (take_line n input).1 lines = (take_line n input).1 := by
  induction n with
  | zero => intro input lines; rfl
  | succ n ih =>
    intro input lines
    cases input with
    | nil => rfl
    | cons c cs =>
      by_cases hc : c = 10
      · simp [take_line, hc, scan_v, step_v_only_squeeze]
      · simp [take_line, hc, scan_v, step_v_only_squeeze, ih cs]

/-- A non-empty zero-free line in the array of `print_stdin` is written as the
same line loaded from a file: what the array holds after the terminator is not
read. -/
theorem print_file_chunk (f : Flags) (chunk junk : List Nat) (hne : chunk ≠ [])
    (h0 : 0 ∉ chunk) (hl : chunk.length ≤ INT_MAX) :
    print_file f (chunk ++ 0 :: junk) = print_file f (load chunk) := by
  unfold load
  rw [print_file_eq f chunk junk h0 hl (Or.inr (Or.inl hne)),
    print_file_eq f chunk [] h0 hl (Or.inr (Or.inl hne))]
  have hp : pre_line_v f chunk junk = pre_line_v f chunk [] := by
    unfold pre_line_v
    rcases chunk with _ | ⟨c0, _ | ⟨c1, r⟩⟩
    · exact absurd rfl hne
    · simp
    · simp
  rw [hp]

theorem print_stdin_loop_nil (f : Flags) (fuel : Nat) (buf : List Nat) :
    print_stdin_loop f fuel buf [] = some [] := by
  unfold print_stdin_loop
  simp [fgets, BUF_MAX_LEN, take_line]

/-- One iteration of the loop of `print_stdin` on an input that begins with
the zero-free line `line`: the line is written as `print_file` writes it when
loaded from a file, whatever the array held. -/
theorem print_stdin_loop_line (f : Flags) (fuel : Nat) (buf line rest : List Nat)
    (h : take_line (BUF_MAX_LEN - 1) (line ++ rest) = (line, rest)) (hne : line ≠ [])
    (h0 : 0 ∉ line) (hl : line.length ≤ INT_MAX) :
    print_stdin_loop f (fuel + 1) buf (line ++ rest) =
      (print_file f (load line)).bind fun out =>
        (print_stdin_loop f fuel (line ++ 0 :: buf.drop (line.length + 1)) rest).map
          fun outs => out ++ outs := by
  conv_lhs => unfold print_stdin_loop
  simp only [fgets, h, if_neg hne, print_file_chunk f line _ hne h0 hl]

theorem print_stdin_loop_only_squeeze (fuel : Nat) :
    ∀ buf input : List Nat, input.length ≤ fuel → 0 ∉ input →
      print_stdin_loop only_squeeze fuel buf input = some input := by
  induction fuel with
  | zero =>
    intro buf input hl _
    have hi : input = [] := List.length_eq_zero.mp (Nat.le_zero.mp hl)
    subst hi
    exact print_stdin_loop_nil only_squeeze 0 buf
  | succ fuel ih =>
    intro buf input hl h0
    cases hin : input with
    | nil => exact print_stdin_loop_nil only_squeeze (fuel + 1) buf
    | cons c cs =>
      rw [← hin]
      have hne : (take_line (BUF_MAX_LEN - 1) input).1 ≠ [] :=
        take_line_ne_nil 4094 input (by simp [hin])
      have happ := take_line_append (BUF_MAX_LEN - 1) input
      have h0c : 0 ∉ (take_line (BUF_MAX_LEN - 1) input).1 := fun h =>
        h0 (by rw [← happ]; exact List.mem_append_left _ h)
      have h0r : 0 ∉ (take_line (BUF_MAX_LEN - 1) input).2 := fun h =>
        h0 (by rw [← happ]; exact List.mem_append_right _ h)
      have hcl : (take_line (BUF_MAX_LEN - 1) input).1.length ≤ INT_MAX :=
        Nat.le_trans (take_line_length_le (BUF_MAX_LEN - 1) input) (by decide)
      have hlen : (take_line (BUF_MAX_LEN - 1) input).2.length ≤ fuel := by
        have h1 := congrArg List.length happ
        have h2 : 0 < (take_line (BUF_MAX_LEN - 1) input).1.length :=
          List.length_pos.mpr hne
        rw [List.length_append] at h1
        omega
      have hpf := print_file_eq only_squeeze (take_line (BUF_MAX_LEN - 1) input).1
        (buf.drop ((take_line (BUF_MAX_LEN - 1) input).1.length + 1)) h0c hcl (Or.inl rfl)
      have hpre : ∀ b junk, pre_line_v only_squeeze b junk = [] := by
        intro b junk; simp [pre_line_v, only_squeeze, no_flags]
      rw [hpre, take_line_squeeze, List.nil_append] at hpf
      unfold print_stdin_loop
      simp only [fgets, if_neg hne, hpf, Option.some_bind, ih _ _ hlen h0r, Option.map_some',
        happ]

/-- With only `number` set both lines of the standard input "a\nb\n" are
numbered 1, whatever the array of `print_stdin` holds on entry. -/
theorem print_stdin_only_number_two_lines (stack : List Nat) :
    print_stdin only_number stack (bytes "a\nb\n") = some (bytes "     1  a\n     1  b\n") := by
  have h1 := print_stdin_loop_line only_number 3 stack [97, 10] [98, 10]
    (by decide) (by decide) (by decide) (by decide)
  have h2 := print_stdin_loop_line only_number 2
    ([97, 10] ++ 0 :: stack.drop ([97, 10].length + 1)) [98, 10] []
    (by decide) (by decide) (by decide) (by decide)
  have h3 := print_stdin_loop_nil only_number 2
    ([98, 10] ++ 0 :: ([97, 10] ++ 0 :: stack.drop ([97, 10].length + 1)).drop
      ([98, 10].length + 1))
  have e1 : print_file only_number (load [97, 10]) = some (bytes "     1  a\n") := by decide
  have e2 : print_file only_number (load [98, 10]) = some (bytes "     1  b\n") := by decide
  rw [e1] at h1
  rw [e2, h3] at h2
  have h2' : print_stdin_loop only_number 3
      ([97, 10] ++ 0 :: stack.drop ([97, 10].length + 1)) [98, 10] =
      some (bytes "     1  b\n") := h2
  rw [h2'] at h1
  exact h1

/-- C2: with `number` set the counter starts again at 1 in every call of
`print_file`. The files "a\n" and "b\n" read in one run are written as
"     1  a\n     1  b\n", not numbered 1 and 2; and the two lines "a\nb\n" read
from standard input, which `print_stdin` hands over one line at a time, are
both numbered 1, where the same bytes read from a file are numbered 1 and 2. -/
theorem C2_counter_restarts :
    cat only_number [bytes "a\n", bytes "b\n"] = some (bytes "     1  a\n     1  b\n") ∧
      cat only_number [bytes "a\n", bytes "b\n"] ≠
        some (number_ref 1 (segments (bytes "a\n") ++ segments (bytes "b\n"))) ∧
      print_stdin only_number (List.replicate BUF_MAX_LEN 0) (bytes "a\nb\n") =
        some (bytes "     1  a\n     1  b\n") ∧
      cat only_number [bytes "a\nb\n"] = some (bytes "     1  a\n     2  b\n") :=
  ⟨by decide, by decide, print_stdin_only_number_two_lines _, by decide⟩

/-- With only `squeeze_blank` set `print_stdin` writes every zero-free standard
input unchanged: a buffer filled by `fgets` holds at most one newline, its
last byte, so the squeeze rule never applies. -/
theorem print_stdin_only_squeeze (stack input : List Nat) (h0 : 0 ∉ input) :
    print_stdin only_squeeze stack input = some input :=
  print_stdin_loop_only_squeeze input.length stack input (Nat.le_refl _) h0

/-- C16: with `squeeze_blank` set nothing is kept from one call of
`print_file` to the next. The four buffers "a\n", "\n", "\n", "b\n" processed
one after the other are written unchanged, with two consecutive empty lines,
and so is the standard input "a\n\n\nb\n", which `print_stdin` hands over one
line at a time; the same bytes processed as one buffer are written as
"a\n\nb\n". -/
theorem C16_run_across_buffers_kept :
    cat only_squeeze [bytes "a\n", bytes "\n", bytes "\n", bytes "b\n"] =
        some (bytes "a\n\n\nb\n") ∧
      cat only_squeeze [bytes "a\n\n\nb\n"] = some (bytes "a\n\nb\n") ∧
      print_stdin only_squeeze (List.replicate BUF_MAX_LEN 0) (bytes "a\n\n\nb\n") =
        some (bytes "a\n\n\nb\n") :=
  ⟨by decide, by decide, print_stdin_only_squeeze _ _ (by decide)⟩

/-! ## `squeeze_blank` with `number` -/

theorem step_v_squeeze_number (lines c : Nat) (rest : List Nat) (h0 : 0 ∉ rest) :
    step_v squeeze_number lines c rest =
      if c = 10 ∧ rest.head? = some 10 then
        match rest.tail with
        | [] => ([], lines)
        | c2 :: _ => if c2 ≠ 10 then (nl_num_field (lines + 1), lines + 1) else ([], lines)
      else if c = 10 ∧ rest ≠ [] then (nl_num_field (lines + 1), lines + 1)
      else ([c], lines) := by
  by_cases h : c = 10 ∧ rest.head? = some 10
  · obtain ⟨hc, hr⟩ := h
    rcases rest with _ | ⟨c1, _ | ⟨c2, r⟩⟩
    · simp at hr
    · simp [step_v, squeeze_number, no_flags, hc, hr]
    · have hc1 : c1 = 10 := by simpa using hr
      by_cases h2 : c2 = 10 <;> simp [step_v, squeeze_number, no_flags, hc, hc1, h2]
  · rw [if_neg h]
    have h' : (c == 10 && rest.head? == some 10) = false := by
      by_cases hc : c = 10
      · have hr : rest.head? ≠ some 10 := fun hr => h ⟨hc, hr⟩
        simp [hc, hr]
      · simp [hc]
    cases rest with
    | nil =>
      simp [step_v, nonblank_down_v, ends_number_v, emit_char, squeeze_number, no_flags]
    | cons c1 r =>
      have hc1 : c1 ≠ 0 := fun h => h0 (by simp [h])
      have h'' : (c == 10 && c1 == 10) = false := by simpa using h'
      by_cases hc : c = 10
      · have hc10 : c1 ≠ 10 := by
          intro h1; simp [hc, h1] at h''
        simp [step_v, nonblank_down_v, ends_number_v, emit_char, squeeze_number, no_flags, hc,
          hc1, hc10]
      · simp [step_v, nonblank_down_v, ends_number_v, emit_char, squeeze_number, no_flags, hc]

theorem scan_v_cons (f : Flags) (c : Nat) (rest : List Nat) (lines : Nat) :
    scan_v f (c :: rest) lines =
      (step_v f lines c rest).1 ++ scan_v f rest (step_v f lines c rest).2 := rfl

theorem mem_scan_v_only_squeeze (b : List Nat) :
    ∀ (lines x : Nat), x ∈ scan_v only_squeeze b lines → x ∈ b := by
  induction b with
  | nil => intro lines x h; simp [scan_v] at h
  | cons c rest ih =>
    intro lines x h
    rw [scan_v_cons, step_v_only_squeeze] at h
    by_cases hs : c = 10 ∧ rest.head? = some 10
    · rw [if_pos hs] at h
      rcases List.mem_append.mp h with he | hr
      · have hx : x = 10 := by
          simp only at he
          generalize rest.tail = t at he
          rcases t with _ | ⟨c2, r2⟩
          · simp at he
          · by_cases h2 : c2 = 10
            · simp [h2] at he
            · simpa [h2] using he
        simp [hx, hs.1]
      · exact List.mem_cons_of_mem _ (ih _ x hr)
    · rw [if_neg hs] at h
      rcases List.mem_append.mp h with he | hr
      · simp at he; simp [he]
      · exact List.mem_cons_of_mem _ (ih _ x hr)

theorem scan_v_only_squeeze_ne_nil (b : List Nat) :
    ∀ lines : Nat, b ≠ [] → scan_v only_squeeze b lines ≠ [] := by
  induction b with
  | nil => intro lines h; exact absurd rfl h
  | cons c rest ih =>
    intro lines _
    rw [scan_v_cons, step_v_only_squeeze]
    by_cases hs : c = 10 ∧ rest.head? = some 10
    · rw [if_pos hs]
      have hr : rest ≠ [] := by
        intro h; rw [h] at hs; simp at hs
      intro h
      exact ih _ hr (List.append_eq_nil.mp h).2
    · rw [if_neg hs]; simp

theorem scan_v_only_number_cons (c k : Nat) (x : List Nat) (h0 : 0 ∉ x) :
    scan_v only_number (c :: x) k =
      if c = 10 ∧ x ≠ [] then nl_num_field (k + 1) ++ scan_v only_number x (k + 1)
      else c :: scan_v only_number x k := by
  rw [scan_v_cons, step_v_only_number k c x h0]
  split_ifs <;> simp

theorem scan_v_squeeze_number (b : List Nat) :
    ∀ k l : Nat, 0 ∉ b →
      scan_v squeeze_number b k = scan_v only_number (scan_v only_squeeze b l) k := by
  induction b with
  | nil => intro k l _; rfl
  | cons c rest ih =>
    intro k l h0
    have h0r : 0 ∉ rest := fun h => h0 (by simp [h])
    have h0s : ∀ l', 0 ∉ scan_v only_squeeze rest l' := fun l' h =>
      h0r (mem_scan_v_only_squeeze rest l' 0 h)
    by_cases hs : c = 10 ∧ rest.head? = some 10
    · obtain ⟨hc, hr⟩ := hs
      subst hc
      rcases rest with _ | ⟨c1, r⟩
      · simp at hr
      · have hc1 : c1 = 10 := by simpa using hr
        subst hc1
        rcases r with _ | ⟨c2, r2⟩
        · have e1 : scan_v squeeze_number [10, 10] k = scan_v squeeze_number [10] k := by
            rw [scan_v_cons squeeze_number 10 [10] k, step_v_squeeze_number k 10 [10] h0r]
            simp
          have e2 : scan_v only_squeeze [10, 10] l = scan_v only_squeeze [10] l := by
            rw [scan_v_cons only_squeeze 10 [10] l, step_v_only_squeeze]
            simp
          rw [e1, e2]
          exact ih k l h0r
        · by_cases h2 : c2 = 10
          · subst h2
            have e1 : scan_v squeeze_number (10 :: 10 :: 10 :: r2) k =
                scan_v squeeze_number (10 :: 10 :: r2) k := by
              rw [scan_v_cons squeeze_number 10 (10 :: 10 :: r2) k,
                step_v_squeeze_number k 10 _ h0r]
              simp
            have e2 : scan_v only_squeeze (10 :: 10 :: 10 :: r2) l =
                scan_v only_squeeze (10 :: 10 :: r2) l := by
              rw [scan_v_cons only_squeeze 10 (10 :: 10 :: r2) l, step_v_only_squeeze]
              simp
            rw [e1, e2]
            exact ih k l h0r
          · have e1 : scan_v squeeze_number (10 :: 10 :: c2 :: r2) k =
                nl_num_field (k + 1) ++ scan_v squeeze_number (10 :: c2 :: r2) (k + 1) := by
              rw [scan_v_cons squeeze_number 10 (10 :: c2 :: r2) k,
                step_v_squeeze_number k 10 _ h0r]
              simp [h2]
            have e2 : scan_v only_squeeze (10 :: 10 :: c2 :: r2) l =
                10 :: scan_v only_squeeze (10 :: c2 :: r2) l := by
              rw [scan_v_cons only_squeeze 10 (10 :: c2 :: r2) l, step_v_only_squeeze]
              simp [h2]
            have hne : scan_v only_squeeze (10 :: c2 :: r2) l ≠ [] :=
              scan_v_only_squeeze_ne_nil _ l (by simp)
            rw [e1, e2, scan_v_only_number_cons 10 k _ (h0s l), ih (k + 1) l h0r]
            simp [hne]
    · have e1 : scan_v squeeze_number (c :: rest) k =
          if c = 10 ∧ rest ≠ [] then nl_num_field (k + 1) ++ scan_v squeeze_number rest (k + 1)
          else c :: scan_v squeeze_number rest k := by
        rw [scan_v_cons squeeze_number c rest k, step_v_squeeze_number k c rest h0r, if_neg hs]
        split_ifs <;> simp
      have e2 : scan_v only_squeeze (c :: rest) l = c :: scan_v only_squeeze rest l := by
        rw [scan_v_cons only_squeeze c rest l, step_v_only_squeeze, if_neg hs]
        simp
      rw [e1, e2, scan_v_only_number_cons c k _ (h0s l)]
      by_cases hr : rest = []
      · subst hr
        simp [scan_v]
      · have hne : scan_v only_squeeze rest l ≠ [] := scan_v_only_squeeze_ne_nil rest l hr
        by_cases hc : c = 10
        · simp only [hc, hr, hne, ne_eq, not_false_eq_true, and_self, if_true]
          rw [ih (k + 1) l h0r]
        · simp only [hc, false_and, if_false]
          rw [ih k l h0r]

theorem length_scan_v_only_squeeze_le (b : List Nat) :
    ∀ lines : Nat, (scan_v only_squeeze b lines).length ≤ b.length := by
  induction b with
  | nil => intro lines; simp [scan_v]
  | cons c rest ih =>
    intro lines
    rw [scan_v_cons, step_v_only_squeeze]
    by_cases hs : c = 10 ∧ rest.head? = some 10
    · rw [if_pos hs]
      have := ih lines
      have he : (match rest.tail with
          | [] => ([] : List Nat)
          | c2 :: _ => if c2 ≠ 10 then [10] else []).length ≤ 1 := by
        split
        · simp
        · split <;> simp
      simp only [List.length_append, List.length_cons]
      omega
    · rw [if_neg hs]
      have := ih lines
      simp only [List.length_append, List.length_cons, List.length_nil]
      omega

/-- C19 (as stated) fails: for the zero-free buffer of `2^32 + 3` bytes that
begins with the line `a` and two empty lines, `int len = strlen(buf)` is 3.
With `squeeze_blank` and `number` set `print_file` writes "     1  a\n     2  ",
the byte after the third being read as the start of a further line; with only
`squeeze_blank` set it writes "a\n", which `print_file` with only `number` set
writes as "     1  a\n". -/
theorem C19_wrapped_length_differs :
    0 ∉ four_gib_lines ∧
      print_file squeeze_number (load four_gib_lines) = some (bytes "     1  a\n     2  ") ∧
      ((print_file only_squeeze (load four_gib_lines)).bind fun o =>
        print_file only_number (load o)) = some (bytes "     1  a\n") := by
  refine ⟨four_gib_lines_zero_free, ?_, ?_⟩
  · rw [print_file_four_gib_lines squeeze_number rfl]
    decide
  · rw [print_file_four_gib_lines only_squeeze rfl]
    decide

/-- C19 (amended): for every zero-free buffer of at most `INT_MAX` bytes,
`print_file` with `squeeze_blank` and `number` both set writes exactly what
`print_file` with only `number` set writes for the output that `print_file`
with only `squeeze_blank` set produces for the buffer. -/
theorem C19_squeeze_then_number (b : List Nat) (h0 : 0 ∉ b) (hl : b.length ≤ INT_MAX) :
    print_file squeeze_number (load b) =
      (print_file only_squeeze (load b)).bind fun o => print_file only_number (load o) := by
  have hps : pre_line_v only_squeeze b [] = [] := by simp [pre_line_v, only_squeeze, no_flags]
  have h0s : 0 ∉ scan_v only_squeeze b 1 := fun h => h0 (mem_scan_v_only_squeeze b 1 0 h)
  have hls : (scan_v only_squeeze b 1).length ≤ INT_MAX :=
    Nat.le_trans (length_scan_v_only_squeeze_le b 1) hl
  rw [cat_file_eq squeeze_number b h0 hl (Or.inl rfl),
    cat_file_eq only_squeeze b h0 hl (Or.inl rfl),
    hps, List.nil_append, Option.some_bind,
    cat_file_eq only_number _ h0s hls (Or.inl rfl), scan_v_squeeze_number b 1 1 h0]
  simp [pre_line_v, only_number, squeeze_number, no_flags]

theorem C19_squeeze_then_number_witness :
    print_file squeeze_number (load (bytes "a\n\n\nb\n")) =
        ((print_file only_squeeze (load (bytes "a\n\n\nb\n"))).bind fun o =>
          print_file only_number (load o)) ∧
      print_file squeeze_number (load (bytes "a\n\n\nb\n")) =
        some (bytes "     1  a\n     2  \n     3  b\n") :=
  ⟨C19_squeeze_then_number (bytes "a\n\n\nb\n") (by decide) (by decide), by decide⟩

/-! ## The scan ends at the first zero byte -/

theorem load_split (c : List Nat) :
    ∃ junk, load c = c.takeWhile (fun x => x != 0) ++ 0 :: junk := by
  induction c with
  | nil => exact ⟨[], rfl⟩
  | cons x xs ih =>
    obtain ⟨junk, hj⟩ := ih
    by_cases hx : x = 0
    · exact ⟨xs ++ [0], by simp [load, hx]⟩
    · refine ⟨junk, ?_⟩
      unfold load at hj ⊢
      simp [List.takeWhile_cons, hx, hj]

theorem zero_not_mem_takeWhile (c : List Nat) : 0 ∉ c.takeWhile (fun x => x != 0) := by
  intro h
  have := List.mem_takeWhile_imp h
  simp at this

theorem takeWhile_eq_self (c : List Nat) : c.takeWhile (fun x => x != 0) = c ↔ 0 ∉ c := by
  induction c with
  | nil => simp
  | cons x xs ih =>
    by_cases hx : x = 0
    · simp [List.takeWhile_cons, hx]
    · have hx' : ¬ 0 = x := fun h => hx h.symm
      simp [List.takeWhile_cons, hx, hx', ih]

/-- C20 (as stated) fails: the buffer of `2^31` bytes holds no zero byte, yet
with no flags set `print_file` writes nothing of it, its length not fitting
the `int len` of the loop. -/
theorem C20_two_gib_not_written :
    0 ∉ two_gib ∧ print_file no_flags (load two_gib) = some [] ∧
      print_file no_flags (load two_gib) ≠ some two_gib := by
  refine ⟨two_gib_zero_free, print_file_two_gib no_flags rfl, ?_⟩
  rw [print_file_two_gib no_flags rfl]
  intro h
  have h' : ([] : List Nat) = two_gib := Option.some.inj h
  exact List.ne_nil_of_mem two_gib_mem h'.symm

/-- C20 (amended): for every byte sequence loaded as the contents of a file
whose part before the first zero byte has at most `INT_MAX` bytes, the length
`print_file` takes is that of this part and, for every combination of flags,
the loop writes what it writes for that part alone; with no flags set the
output is exactly that longest zero-free part, so it equals the whole contents
if and only if the contents hold no zero byte. -/
theorem C20_output_stops_at_zero (c : List Nat)
    (hl : (c.takeWhile fun x => x != 0).length ≤ INT_MAX) :
    strlen (load c) = some (c.takeWhile fun x => x != 0).length ∧
      (∀ f : Flags, ((strlen (load c)).bind fun n =>
          scan f (load c) (int_of_size n) (int_of_size n).toNat 0 1) =
        some (scan_v f (c.takeWhile fun x => x != 0) 1)) ∧
      print_file no_flags (load c) = some (c.takeWhile fun x => x != 0) ∧
      (print_file no_flags (load c) = some c ↔ 0 ∉ c) := by
  obtain ⟨junk, hj⟩ := load_split c
  have hz := zero_not_mem_takeWhile c
  have hlen : strlen (load c) = some (c.takeWhile fun x => x != 0).length := by
    rw [hj]; exact strlen_append_zero _ junk hz
  have hpf : print_file no_flags (load c) = some (c.takeWhile fun x => x != 0) := by
    rw [hj, print_file_eq no_flags _ junk hz hl (Or.inl rfl), scan_v_no_flags]
    simp [pre_line_v, no_flags]
  refine ⟨hlen, ?_, hpf, ?_⟩
  · intro f
    rw [hlen, Option.some_bind, int_of_size_of_le _ hl, Int.toNat_ofNat]
    have := scan_eq f (load c) (c.takeWhile fun x => x != 0) junk 0 1 (by simpa using hj)
      (by omega)
    simpa using this
  · rw [hpf, Option.some.injEq]
    exact takeWhile_eq_self c

theorem C20_output_stops_at_zero_witness :
    (strlen (load [97, 10, 0, 98]) = some ([97, 10, 0, 98].takeWhile fun x => x != 0).length ∧
      (∀ f : Flags, ((strlen (load [97, 10, 0, 98])).bind fun n =>
          scan f (load [97, 10, 0, 98]) (int_of_size n) (int_of_size n).toNat 0 1) =
        some (scan_v f ([97, 10, 0, 98].takeWhile fun x => x != 0) 1)) ∧
      print_file no_flags (load [97, 10, 0, 98]) =
        some ([97, 10, 0, 98].takeWhile fun x => x != 0) ∧
      (print_file no_flags (load [97, 10, 0, 98]) = some [97, 10, 0, 98] ↔
        0 ∉ [97, 10, 0, 98])) ∧
      ([97, 10, 0, 98].takeWhile fun x => x != 0) = [97, 10] :=
  ⟨C20_output_stops_at_zero [97, 10, 0, 98] (by decide), by decide⟩

end Cat
